import Mathlib

/-!
Verification of the Minesweeper inference engine (Ved-P/minesweeper,
src/minesweeper.py).  The core consists of the `Sentence` constraint class
and the `MinesweeperAI` knowledge base.  Python sets of cells are modelled
as `Finset Cell`; Python ints as `ℤ` (they are arbitrary precision and the
code lets `count` go negative); the knowledge list as `List Sentence`.

Modelling notes, checked against the source:
* `Sentence.__eq__` compares `cells` and `count` by value, so `Sentence`
  is a structure with `DecidableEq`: Lean equality coincides with the
  Python `==`.
* `Sentence.__hash__` is `hash(repr(self))`, but the class only defines
  `__str__`, not `__repr__`; `repr` therefore falls back to the default
  object representation, which contains the object's memory address and is
  distinct for every live object.  Consequently the Python set
  `new_sentences` in `add_knowledge` never identifies two distinct
  `Sentence` objects, even value-equal ones: every `add` call inserts.
  It is therefore modelled as a `List Sentence` that appends on every
  insertion, in the (outer loop, inner loop) generation order; iteration
  order of that set is likewise modelled as this insertion order.  All
  claims about it are membership or multiplicity statements, which do not
  depend on the order choice.
* CPython iterates `self.safes` in `make_safe_move` in an unspecified
  hash order; the model returns the lexicographically least candidate (a
  fixed representative of the unspecified tie-break).
-/

/-- A board cell `(row, col)`; Python tuples of ints compare by value. -/
structure Cell where
  row : ℤ
  col : ℤ

/-- Equality of cells is decidable componentwise.  Written with
`decidable_of_iff` rather than `deriving` so that the instance reduces
without getting stuck on an `Eq.rec` when evaluating concrete runs. -/
instance : DecidableEq Cell := fun a b =>
  decidable_of_iff (a.row = b.row ∧ a.col = b.col)
    (by cases a; cases b; simp)

/-- Lexicographic order on cells, standing in for the unspecified CPython
set-iteration order used by `make_safe_move` (any fixed choice of
candidate satisfies the same contract). -/
instance : LinearOrder Cell :=
  LinearOrder.lift' (fun c => (toLex (c.row, c.col) : ℤ ×ₗ ℤ))
    (fun a b h => by
      cases a; cases b
      simpa [Prod.ext_iff] using congrArg (fun x => ofLex x) h)

/-- Python class `Sentence`: a set of cells and a count of how many of
them are mines. -/
structure Sentence where
  cells : Finset Cell
  count : ℤ

/-- The Python `Sentence.__eq__`: equal cell sets and equal counts.  Lean
structure equality coincides with it; decidability is again spelled via
`decidable_of_iff` so concrete runs evaluate. -/
instance : DecidableEq Sentence := fun a b =>
  decidable_of_iff (a.cells = b.cells ∧ a.count = b.count)
    (by cases a; cases b; simp)

/-- Source `Sentence.known_mines`: all of `cells` if `count == len(cells)`,
else the empty set. -/
def Sentence.known_mines (s : Sentence) : Finset Cell :=
  if s.count = (s.cells.card : ℤ) then s.cells else ∅

/-- Source `Sentence.known_safes`: all of `cells` if `count == 0`, else
the empty set. -/
def Sentence.known_safes (s : Sentence) : Finset Cell :=
  if s.count = 0 then s.cells else ∅

/-- Source `Sentence.mark_mine`: collects every element of `cells` equal
to `cell` into `to_be_removed`, decrementing `count` once per match, then
removes them.  A set has at most one match, but the translation keeps the
filter shape of the loop. -/
def Sentence.mark_mine (s : Sentence) (cell : Cell) : Sentence :=
  { cells := s.cells \ s.cells.filter (fun x => cell = x),
    count := s.count - ((s.cells.filter (fun x => cell = x)).card : ℤ) }

/-- Source `Sentence.mark_safe`: same removal loop, `count` untouched. -/
def Sentence.mark_safe (s : Sentence) (cell : Cell) : Sentence :=
  { cells := s.cells \ s.cells.filter (fun x => cell = x),
    count := s.count }

/-- Python class `MinesweeperAI`: board dimensions plus the mutable
knowledge-base state. -/
structure AIState where
  height : ℤ
  width : ℤ
  moves_made : Finset Cell
  mines : Finset Cell
  safes : Finset Cell
  knowledge : List Sentence

instance : DecidableEq AIState := fun a b =>
  decidable_of_iff (a.height = b.height ∧ a.width = b.width ∧
      a.moves_made = b.moves_made ∧ a.mines = b.mines ∧
      a.safes = b.safes ∧ a.knowledge = b.knowledge)
    (by cases a; cases b; simp)

/-- Source `MinesweeperAI.__init__`: empty sets, empty knowledge list. -/
def AIState.init (h w : ℤ) : AIState :=
  { height := h, width := w, moves_made := ∅, mines := ∅, safes := ∅,
    knowledge := [] }

/-- Source `MinesweeperAI.mark_mine`: add to `mines` and propagate
`Sentence.mark_mine` to every sentence in `knowledge`. -/
def AIState.mark_mine (s : AIState) (cell : Cell) : AIState :=
  { s with mines := insert cell s.mines,
           knowledge := s.knowledge.map (fun snt => snt.mark_mine cell) }

/-- Source `MinesweeperAI.mark_safe`: add to `safes` and propagate
`Sentence.mark_safe` to every sentence in `knowledge`. -/
def AIState.mark_safe (s : AIState) (cell : Cell) : AIState :=
  { s with safes := insert cell s.safes,
           knowledge := s.knowledge.map (fun snt => snt.mark_safe cell) }

/-- Source `MinesweeperAI.check`: if `known_mines()` is truthy (nonempty)
insert all of them into `mines`; elif `known_safes()` is truthy insert all
of them into `safes`.  It does NOT propagate via `mark_mine`/`mark_safe`,
so the sentences in `knowledge` are untouched. -/
def AIState.check (s : AIState) (snt : Sentence) : AIState :=
  if snt.known_mines.Nonempty then { s with mines := s.mines ∪ snt.known_mines }
  else if snt.known_safes.Nonempty then { s with safes := s.safes ∪ snt.known_safes }
  else s

/-- The 3x3 block scanned by the neighbor loop of `add_knowledge`, in
source loop order `i in [r-1, r, r+1]`, `j in [c-1, c, c+1]`. -/
def scanList (cell : Cell) : List Cell :=
  [cell.row - 1, cell.row, cell.row + 1].flatMap
    (fun i => [cell.col - 1, cell.col, cell.col + 1].map (fun j => ⟨i, j⟩))

/-- The guard of the neighbor loop of `add_knowledge`:
`0 <= i <= height - 1 and 0 <= j <= width - 1 and (i, j) != cell`. -/
def inBounds (h w : ℤ) (cell x : Cell) : Prop :=
  0 ≤ x.row ∧ x.row ≤ h - 1 ∧ 0 ≤ x.col ∧ x.col ≤ w - 1 ∧
    (x.row ≠ cell.row ∨ x.col ≠ cell.col)

instance (h w : ℤ) (cell x : Cell) : Decidable (inBounds h w cell x) :=
  inferInstanceAs (Decidable
    (0 ≤ x.row ∧ x.row ≤ h - 1 ∧ 0 ≤ x.col ∧ x.col ≤ w - 1 ∧
      (x.row ≠ cell.row ∨ x.col ≠ cell.col)))

/-- Body of the neighbor loop of `add_knowledge`: in-bounds cells other
than `cell` itself either decrement the running count (already a known
mine), are skipped (already known safe), or join the sentence set. -/
def scanStep (st : AIState) (cell : Cell) (acc : Finset Cell × ℤ) (x : Cell) :
    Finset Cell × ℤ :=
  if inBounds st.height st.width cell x then
    if x ∈ st.mines then (acc.1, acc.2 - 1)
    else if x ∈ st.safes then acc
    else (insert x acc.1, acc.2)
  else acc

/-- The neighbor scan of `add_knowledge`: builds `sentence_set` and the
adjusted `count` for the new sentence. -/
def buildScan (st : AIState) (cell : Cell) (count : ℤ) : Finset Cell × ℤ :=
  (scanList cell).foldl (scanStep st cell) (∅, count)

/-- One iteration of the inner resolution loop of `add_knowledge`: for the
ordered pair `(s1, s2)` with distinct cell sets, if one cell set contains
the other, record the inferred difference sentence (the Python
`new_sentences.add`, which by the hash remark above always appends) and
run `check` on both sentences of the pair. -/
def pairStep (s1 : Sentence) (acc : AIState × List Sentence) (s2 : Sentence) :
    AIState × List Sentence :=
  if s1.cells ≠ s2.cells then
    if s1.cells ⊆ s2.cells then
      ((acc.1.check s1).check s2,
        acc.2 ++ [⟨s2.cells \ s1.cells, s2.count - s1.count⟩])
    else if s2.cells ⊆ s1.cells then
      ((acc.1.check s1).check s2,
        acc.2 ++ [⟨s1.cells \ s2.cells, s1.count - s2.count⟩])
    else acc
  else acc

/-- The full pairwise resolution pass of `add_knowledge`: both loops run
over the knowledge list as it stands when the pass starts (it is not
modified during the pass). -/
def resolutionPass (s : AIState) : AIState × List Sentence :=
  s.knowledge.foldl (fun acc s1 => s.knowledge.foldl (pairStep s1) acc)
    (s, [])

/-- Final loop of `add_knowledge`: append each inferred sentence to
`knowledge` and `check` it. -/
def appendCheck (acc : AIState) (snt : Sentence) : AIState :=
  ({ acc with knowledge := acc.knowledge ++ [snt] }).check snt

/-- Steps 1 and 2 of `add_knowledge`: `self.moves_made.add(cell)` then
`self.mark_safe(cell)`. -/
def obsState (s : AIState) (cell : Cell) : AIState :=
  ({ s with moves_made := insert cell s.moves_made }).mark_safe cell

/-- The sentence `my_sentence = Sentence(sentence_set, count)` built by the
neighbor scan of `add_knowledge` against the state after step 2. -/
def obsSentence (s : AIState) (cell : Cell) (count : ℤ) : Sentence :=
  ⟨(buildScan (obsState s cell) cell count).1,
    (buildScan (obsState s cell) cell count).2⟩

/-- The state after `add_knowledge` appends `my_sentence` and checks it,
just before the resolution pass starts. -/
def preResolution (s : AIState) (cell : Cell) (count : ℤ) : AIState :=
  ({ obsState s cell with
      knowledge := (obsState s cell).knowledge ++ [obsSentence s cell count] }).check
    (obsSentence s cell count)

/-- Source `MinesweeperAI.add_knowledge`: record the move, mark the cell
safe, build the neighbor sentence, append and check it, run the pairwise
resolution pass, then append and check every inferred sentence. -/
def AIState.add_knowledge (s : AIState) (cell : Cell) (count : ℤ) : AIState :=
  (resolutionPass (preResolution s cell count)).2.foldl appendCheck
    (resolutionPass (preResolution s cell count)).1

/-- Source `MinesweeperAI.make_safe_move`: return a cell of `safes` not in
`moves_made`, or `None`.  The method only reads state, so the returned
state is `s` itself. -/
def AIState.make_safe_move (s : AIState) : AIState × Option Cell :=
  (s, if h : (s.safes \ s.moves_made).Nonempty
      then some ((s.safes \ s.moves_made).min' h) else none)

/-- Source `MinesweeperAI.make_random_move`: scan the board in row-major
order and return the first cell that is neither probed nor a known mine,
or `None`.  Only reads state. -/
def AIState.make_random_move (s : AIState) : AIState × Option Cell :=
  (s, (List.range s.height.toNat).findSome? (fun i =>
        (List.range s.width.toNat).findSome? (fun j =>
          if (⟨(i : ℤ), (j : ℤ)⟩ : Cell) ∉ s.moves_made ∧
             (⟨(i : ℤ), (j : ℤ)⟩ : Cell) ∉ s.mines
          then some ⟨(i : ℤ), (j : ℤ)⟩ else none)))

/-- One public API call on the knowledge base. -/
inductive Step : AIState → AIState → Prop
| mark_mine (s : AIState) (c : Cell) : Step s (s.mark_mine c)
| mark_safe (s : AIState) (c : Cell) : Step s (s.mark_safe c)
| add_knowledge (s : AIState) (c : Cell) (k : ℤ) : Step s (s.add_knowledge c k)
| make_safe_move (s : AIState) : Step s s.make_safe_move.1
| make_random_move (s : AIState) : Step s s.make_random_move.1

/-- States reachable from a freshly constructed `MinesweeperAI` by any
sequence of public API calls. -/
inductive Reach : AIState → Prop
| init (h w : ℤ) : Reach (AIState.init h w)
| step {s t : AIState} : Reach s → Step s t → Reach t

/-- Modelled from the spec: the in-bounds 8-neighborhood of a cell (the
cells within one row and one column, the cell itself excluded, clipped to
the board). -/
def specNeighbors (h w : ℤ) (cell : Cell) : Finset Cell :=
  ((scanList cell).filter (fun x =>
      (0 ≤ x.row ∧ x.row ≤ h - 1 ∧ 0 ≤ x.col ∧ x.col ≤ w - 1) ∧
        x ≠ cell)).toFinset

/-! ### Helper lemmas about `Sentence` operations -/

theorem Sentence.filter_cells_eq (s : Sentence) (c : Cell) :
    s.cells.filter (fun x => c = x) = if c ∈ s.cells then {c} else ∅ :=
  Finset.filter_eq s.cells c

theorem Sentence.mark_mine_of_mem (s : Sentence) (c : Cell) (h : c ∈ s.cells) :
    s.mark_mine c = ⟨s.cells.erase c, s.count - 1⟩ := by
  simp [Sentence.mark_mine, Sentence.filter_cells_eq, h,
    Finset.sdiff_singleton_eq_erase]

theorem Sentence.mark_mine_of_not_mem (s : Sentence) (c : Cell)
    (h : c ∉ s.cells) : s.mark_mine c = s := by
  simp [Sentence.mark_mine, Sentence.filter_cells_eq, h]

theorem Sentence.mark_safe_of_mem (s : Sentence) (c : Cell) (h : c ∈ s.cells) :
    s.mark_safe c = ⟨s.cells.erase c, s.count⟩ := by
  simp [Sentence.mark_safe, Sentence.filter_cells_eq, h,
    Finset.sdiff_singleton_eq_erase]

theorem Sentence.mark_safe_of_not_mem (s : Sentence) (c : Cell)
    (h : c ∉ s.cells) : s.mark_safe c = s := by
  simp [Sentence.mark_safe, Sentence.filter_cells_eq, h]

theorem Sentence.not_mem_mark_mine (s : Sentence) (c : Cell) :
    c ∉ (s.mark_mine c).cells := by
  by_cases h : c ∈ s.cells
  · rw [Sentence.mark_mine_of_mem s c h]
    exact Finset.not_mem_erase c s.cells
  · rw [Sentence.mark_mine_of_not_mem s c h]
    exact h

theorem Sentence.not_mem_mark_safe (s : Sentence) (c : Cell) :
    c ∉ (s.mark_safe c).cells := by
  by_cases h : c ∈ s.cells
  · rw [Sentence.mark_safe_of_mem s c h]
    exact Finset.not_mem_erase c s.cells
  · rw [Sentence.mark_safe_of_not_mem s c h]
    exact h

/-! ### Helper lemmas about `AIState.check` -/

theorem check_knowledge (s : AIState) (snt : Sentence) :
    (s.check snt).knowledge = s.knowledge := by
  unfold AIState.check
  split
  · rfl
  · split
    · rfl
    · rfl

theorem check_mines_subset (s : AIState) (snt : Sentence) :
    s.mines ⊆ (s.check snt).mines := by
  unfold AIState.check
  split
  · exact Finset.subset_union_left
  · split
    · exact subset_rfl
    · exact subset_rfl

theorem check_safes_subset (s : AIState) (snt : Sentence) :
    s.safes ⊆ (s.check snt).safes := by
  unfold AIState.check
  split
  · exact subset_rfl
  · split
    · exact Finset.subset_union_left
    · exact subset_rfl

theorem check_mines_of_nonempty (s : AIState) (snt : Sentence)
    (h : snt.known_mines.Nonempty) :
    (s.check snt).mines = s.mines ∪ snt.known_mines := by
  simp [AIState.check, h]

/-! ### Helper lemmas about the resolution pass -/

theorem pairStep_fst_knowledge (s1 : Sentence) (acc : AIState × List Sentence)
    (s2 : Sentence) : (pairStep s1 acc s2).1.knowledge = acc.1.knowledge := by
  unfold pairStep
  split
  · split
    · simp [check_knowledge]
    · split
      · simp [check_knowledge]
      · rfl
  · rfl

theorem pairStep_fst_mines (s1 : Sentence) (acc : AIState × List Sentence)
    (s2 : Sentence) : acc.1.mines ⊆ (pairStep s1 acc s2).1.mines := by
  unfold pairStep
  split
  · split
    · exact (check_mines_subset _ _).trans (check_mines_subset _ _)
    · split
      · exact (check_mines_subset _ _).trans (check_mines_subset _ _)
      · exact subset_rfl
  · exact subset_rfl

theorem pairStep_fst_safes (s1 : Sentence) (acc : AIState × List Sentence)
    (s2 : Sentence) : acc.1.safes ⊆ (pairStep s1 acc s2).1.safes := by
  unfold pairStep
  split
  · split
    · exact (check_safes_subset _ _).trans (check_safes_subset _ _)
    · split
      · exact (check_safes_subset _ _).trans (check_safes_subset _ _)
      · exact subset_rfl
  · exact subset_rfl

theorem pairStep_snd_mem (s1 : Sentence) (acc : AIState × List Sentence)
    (s2 x : Sentence) (h : x ∈ acc.2) : x ∈ (pairStep s1 acc s2).2 := by
  unfold pairStep
  split
  · split
    · exact List.mem_append_left _ h
    · split
      · exact List.mem_append_left _ h
      · exact h
  · exact h

theorem pairStep_snd_infer (s1 : Sentence) (acc : AIState × List Sentence)
    (s2 : Sentence) (hne : s1.cells ≠ s2.cells) (hsub : s1.cells ⊆ s2.cells) :
    (⟨s2.cells \ s1.cells, s2.count - s1.count⟩ : Sentence) ∈
      (pairStep s1 acc s2).2 := by
  simp [pairStep, hne, hsub]

theorem innerFold_fst_knowledge (l : List Sentence) (s1 : Sentence) :
    ∀ acc : AIState × List Sentence,
      (l.foldl (pairStep s1) acc).1.knowledge = acc.1.knowledge := by
  induction l with
  | nil => intro acc; rfl
  | cons x xs ih =>
      intro acc
      rw [List.foldl_cons, ih, pairStep_fst_knowledge]

theorem innerFold_fst_mines (l : List Sentence) (s1 : Sentence) :
    ∀ acc : AIState × List Sentence,
      acc.1.mines ⊆ (l.foldl (pairStep s1) acc).1.mines := by
  induction l with
  | nil => intro acc; exact subset_rfl
  | cons x xs ih =>
      intro acc
      rw [List.foldl_cons]
      exact (pairStep_fst_mines s1 acc x).trans (ih _)

theorem innerFold_fst_safes (l : List Sentence) (s1 : Sentence) :
    ∀ acc : AIState × List Sentence,
      acc.1.safes ⊆ (l.foldl (pairStep s1) acc).1.safes := by
  induction l with
  | nil => intro acc; exact subset_rfl
  | cons x xs ih =>
      intro acc
      rw [List.foldl_cons]
      exact (pairStep_fst_safes s1 acc x).trans (ih _)

theorem innerFold_snd_mem (l : List Sentence) (s1 : Sentence) :
    ∀ (acc : AIState × List Sentence) (x : Sentence), x ∈ acc.2 →
      x ∈ (l.foldl (pairStep s1) acc).2 := by
  induction l with
  | nil => intro acc x h; exact h
  | cons y ys ih =>
      intro acc x h
      rw [List.foldl_cons]
      exact ih _ x (pairStep_snd_mem s1 acc y x h)

theorem innerFold_snd_infer (l : List Sentence) (s1 s2 : Sentence)
    (hmem : s2 ∈ l) (hne : s1.cells ≠ s2.cells) (hsub : s1.cells ⊆ s2.cells) :
    ∀ acc : AIState × List Sentence,
      (⟨s2.cells \ s1.cells, s2.count - s1.count⟩ : Sentence) ∈
        (l.foldl (pairStep s1) acc).2 := by
  induction l with
  | nil => cases hmem
  | cons y ys ih =>
      intro acc
      rw [List.foldl_cons]
      rcases List.mem_cons.1 hmem with h | h
      · subst h
        exact innerFold_snd_mem ys s1 _ _ (pairStep_snd_infer s1 acc s2 hne hsub)
      · exact ih h _

theorem outerFold_fst_knowledge (L l : List Sentence) :
    ∀ acc : AIState × List Sentence,
      ((L.foldl (fun acc s1 => l.foldl (pairStep s1) acc) acc).1).knowledge =
        acc.1.knowledge := by
  induction L with
  | nil => intro acc; rfl
  | cons x xs ih =>
      intro acc
      rw [List.foldl_cons, ih, innerFold_fst_knowledge]

theorem outerFold_fst_mines (L l : List Sentence) :
    ∀ acc : AIState × List Sentence,
      acc.1.mines ⊆
        ((L.foldl (fun acc s1 => l.foldl (pairStep s1) acc) acc).1).mines := by
  induction L with
  | nil => intro acc; exact subset_rfl
  | cons x xs ih =>
      intro acc
      rw [List.foldl_cons]
      exact (innerFold_fst_mines l x acc).trans (ih _)

theorem outerFold_fst_safes (L l : List Sentence) :
    ∀ acc : AIState × List Sentence,
      acc.1.safes ⊆
        ((L.foldl (fun acc s1 => l.foldl (pairStep s1) acc) acc).1).safes := by
  induction L with
  | nil => intro acc; exact subset_rfl
  | cons x xs ih =>
      intro acc
      rw [List.foldl_cons]
      exact (innerFold_fst_safes l x acc).trans (ih _)

theorem outerFold_snd_mem (L l : List Sentence) :
    ∀ (acc : AIState × List Sentence) (x : Sentence), x ∈ acc.2 →
      x ∈ (L.foldl (fun acc s1 => l.foldl (pairStep s1) acc) acc).2 := by
  induction L with
  | nil => intro acc x h; exact h
  | cons y ys ih =>
      intro acc x h
      rw [List.foldl_cons]
      exact ih _ x (innerFold_snd_mem l y acc x h)

theorem outerFold_snd_infer (L l : List Sentence) (s1 s2 : Sentence)
    (h1 : s1 ∈ L) (h2 : s2 ∈ l) (hne : s1.cells ≠ s2.cells)
    (hsub : s1.cells ⊆ s2.cells) :
    ∀ acc : AIState × List Sentence,
      (⟨s2.cells \ s1.cells, s2.count - s1.count⟩ : Sentence) ∈
        (L.foldl (fun acc s1 => l.foldl (pairStep s1) acc) acc).2 := by
  induction L with
  | nil => cases h1
  | cons y ys ih =>
      intro acc
      rw [List.foldl_cons]
      rcases List.mem_cons.1 h1 with h | h
      · subst h
        exact outerFold_snd_mem ys l _ _ (innerFold_snd_infer l s1 s2 h2 hne hsub acc)
      · exact ih h _

theorem resolutionPass_fst_knowledge (s : AIState) :
    (resolutionPass s).1.knowledge = s.knowledge :=
  outerFold_fst_knowledge s.knowledge s.knowledge (s, [])

theorem resolutionPass_fst_mines (s : AIState) :
    s.mines ⊆ (resolutionPass s).1.mines :=
  outerFold_fst_mines s.knowledge s.knowledge (s, [])

theorem resolutionPass_fst_safes (s : AIState) :
    s.safes ⊆ (resolutionPass s).1.safes :=
  outerFold_fst_safes s.knowledge s.knowledge (s, [])

theorem resolutionPass_infer (s : AIState) (s1 s2 : Sentence)
    (h1 : s1 ∈ s.knowledge) (h2 : s2 ∈ s.knowledge)
    (hne : s1.cells ≠ s2.cells) (hsub : s1.cells ⊆ s2.cells) :
    (⟨s2.cells \ s1.cells, s2.count - s1.count⟩ : Sentence) ∈
      (resolutionPass s).2 :=
  outerFold_snd_infer s.knowledge s.knowledge s1 s2 h1 h2 hne hsub (s, [])

/-! ### Helper lemmas about the final append-and-check loop -/

theorem appendCheck_knowledge (acc : AIState) (snt : Sentence) :
    (appendCheck acc snt).knowledge = acc.knowledge ++ [snt] := by
  unfold appendCheck
  rw [check_knowledge]

theorem appendCheck_mines (acc : AIState) (snt : Sentence) :
    acc.mines ⊆ (appendCheck acc snt).mines := by
  unfold appendCheck
  exact check_mines_subset { acc with knowledge := acc.knowledge ++ [snt] } snt

theorem appendCheck_safes (acc : AIState) (snt : Sentence) :
    acc.safes ⊆ (appendCheck acc snt).safes := by
  unfold appendCheck
  exact check_safes_subset { acc with knowledge := acc.knowledge ++ [snt] } snt

theorem appendFold_knowledge (news : List Sentence) :
    ∀ acc : AIState,
      (news.foldl appendCheck acc).knowledge = acc.knowledge ++ news := by
  induction news with
  | nil => intro acc; simp
  | cons x xs ih =>
      intro acc
      rw [List.foldl_cons, ih, appendCheck_knowledge]
      simp

theorem appendFold_mines (news : List Sentence) :
    ∀ acc : AIState, acc.mines ⊆ (news.foldl appendCheck acc).mines := by
  induction news with
  | nil => intro acc; exact subset_rfl
  | cons x xs ih =>
      intro acc
      rw [List.foldl_cons]
      exact (appendCheck_mines acc x).trans (ih _)

theorem appendFold_safes (news : List Sentence) :
    ∀ acc : AIState, acc.safes ⊆ (news.foldl appendCheck acc).safes := by
  induction news with
  | nil => intro acc; exact subset_rfl
  | cons x xs ih =>
      intro acc
      rw [List.foldl_cons]
      exact (appendCheck_safes acc x).trans (ih _)

theorem appendFold_mines_of_mem (news : List Sentence) (snt : Sentence)
    (hmem : snt ∈ news) (hne : snt.known_mines.Nonempty) :
    ∀ acc : AIState, snt.known_mines ⊆ (news.foldl appendCheck acc).mines := by
  induction news with
  | nil => cases hmem
  | cons y ys ih =>
      intro acc
      rw [List.foldl_cons]
      rcases List.mem_cons.1 hmem with h | h
      · subst h
        refine Finset.Subset.trans ?_ (appendFold_mines ys _)
        unfold appendCheck
        rw [check_mines_of_nonempty _ _ hne]
        exact Finset.subset_union_right
      · exact ih h _

/-! ### Helper lemmas about the stages of `add_knowledge` -/

theorem obsState_mines (s : AIState) (c : Cell) : (obsState s c).mines = s.mines :=
  rfl

theorem obsState_safes (s : AIState) (c : Cell) :
    (obsState s c).safes = insert c s.safes := rfl

theorem obsState_knowledge (s : AIState) (c : Cell) :
    (obsState s c).knowledge = s.knowledge.map (fun snt => snt.mark_safe c) :=
  rfl

theorem preResolution_knowledge (s : AIState) (c : Cell) (k : ℤ) :
    (preResolution s c k).knowledge =
      (obsState s c).knowledge ++ [obsSentence s c k] := by
  unfold preResolution
  rw [check_knowledge]

theorem add_knowledge_knowledge (s : AIState) (c : Cell) (k : ℤ) :
    (s.add_knowledge c k).knowledge =
      (preResolution s c k).knowledge ++ (resolutionPass (preResolution s c k)).2 := by
  unfold AIState.add_knowledge
  rw [appendFold_knowledge, resolutionPass_fst_knowledge]

theorem preResolution_mines_sub (s : AIState) (c : Cell) (k : ℤ) :
    s.mines ⊆ (preResolution s c k).mines := by
  unfold preResolution
  exact check_mines_subset
    { obsState s c with
        knowledge := (obsState s c).knowledge ++ [obsSentence s c k] }
    (obsSentence s c k)

theorem preResolution_safes_sub (s : AIState) (c : Cell) (k : ℤ) :
    s.safes ⊆ (preResolution s c k).safes := by
  refine Finset.Subset.trans (Finset.subset_insert c s.safes) ?_
  unfold preResolution
  exact check_safes_subset
    { obsState s c with
        knowledge := (obsState s c).knowledge ++ [obsSentence s c k] }
    (obsSentence s c k)

theorem add_knowledge_mines_mono (s : AIState) (c : Cell) (k : ℤ) :
    s.mines ⊆ (s.add_knowledge c k).mines := by
  have h2 := resolutionPass_fst_mines (preResolution s c k)
  have h3 := appendFold_mines (resolutionPass (preResolution s c k)).2
    (resolutionPass (preResolution s c k)).1
  exact (preResolution_mines_sub s c k).trans (h2.trans h3)

theorem add_knowledge_safes_mono (s : AIState) (c : Cell) (k : ℤ) :
    s.safes ⊆ (s.add_knowledge c k).safes := by
  have h2 := resolutionPass_fst_safes (preResolution s c k)
  have h3 := appendFold_safes (resolutionPass (preResolution s c k)).2
    (resolutionPass (preResolution s c k)).1
  exact (preResolution_safes_sub s c k).trans (h2.trans h3)

theorem step_mono (s t : AIState) (h : Step s t) :
    s.mines ⊆ t.mines ∧ s.safes ⊆ t.safes := by
  cases h with
  | mark_mine c => exact ⟨Finset.subset_insert _ _, subset_rfl⟩
  | mark_safe c => exact ⟨subset_rfl, Finset.subset_insert _ _⟩
  | add_knowledge c k =>
      exact ⟨add_knowledge_mines_mono s c k, add_knowledge_safes_mono s c k⟩
  | make_safe_move => exact ⟨subset_rfl, subset_rfl⟩
  | make_random_move => exact ⟨subset_rfl, subset_rfl⟩

/-! ### Characterizing the neighbor scan -/

theorem Cell.ne_iff (x c : Cell) :
    x ≠ c ↔ (x.row ≠ c.row ∨ x.col ≠ c.col) := by
  cases x; cases c
  simp only [ne_eq, Cell.mk.injEq, not_and_or]

theorem scanList_eq (c : Cell) :
    scanList c =
      [⟨c.row - 1, c.col - 1⟩, ⟨c.row - 1, c.col⟩, ⟨c.row - 1, c.col + 1⟩,
       ⟨c.row, c.col - 1⟩, ⟨c.row, c.col⟩, ⟨c.row, c.col + 1⟩,
       ⟨c.row + 1, c.col - 1⟩, ⟨c.row + 1, c.col⟩, ⟨c.row + 1, c.col + 1⟩] :=
  rfl

theorem scanList_nodup (c : Cell) : (scanList c).Nodup := by
  rw [scanList_eq]
  simp [List.nodup_cons, List.mem_cons, Cell.mk.injEq]
  omega

theorem scan_foldl (st : AIState) (c : Cell) (l : List Cell) :
    ∀ (S : Finset Cell) (n : ℤ),
      (l.foldl (scanStep st c) (S, n)).1
          = S ∪ (l.filter (fun x =>
              inBounds st.height st.width c x ∧ x ∉ st.mines ∧ x ∉ st.safes)).toFinset ∧
      (l.foldl (scanStep st c) (S, n)).2
          = n - ((l.countP (fun x =>
              inBounds st.height st.width c x ∧ x ∈ st.mines) : ℕ) : ℤ) := by
  induction l with
  | nil => intro S n; simp
  | cons x xs ih =>
      intro S n
      rw [List.foldl_cons]
      by_cases hq : inBounds st.height st.width c x
      · by_cases hm : x ∈ st.mines
        · have hstep : scanStep st c (S, n) x = (S, n - 1) := by
            simp [scanStep, hq, hm]
          rw [hstep]
          refine ⟨?_, ?_⟩
          · rw [(ih S (n - 1)).1]
            congr 1
            simp [List.filter_cons, hq, hm]
          · rw [(ih S (n - 1)).2]
            simp [List.countP_cons, hq, hm]
            ring
        · by_cases hs : x ∈ st.safes
          · have hstep : scanStep st c (S, n) x = (S, n) := by
              simp [scanStep, hq, hm, hs]
            rw [hstep]
            refine ⟨?_, ?_⟩
            · rw [(ih S n).1]
              congr 1
              simp [List.filter_cons, hq, hm, hs]
            · rw [(ih S n).2]
              simp [List.countP_cons, hq, hm]
          · have hstep : scanStep st c (S, n) x = (insert x S, n) := by
              simp [scanStep, hq, hm, hs]
            rw [hstep]
            refine ⟨?_, ?_⟩
            · rw [(ih (insert x S) n).1]
              simp [List.filter_cons, hq, hm, hs, Finset.insert_union,
                Finset.union_insert]
            · rw [(ih (insert x S) n).2]
              simp [List.countP_cons, hq, hm]
      · have hstep : scanStep st c (S, n) x = (S, n) := by
          simp [scanStep, hq]
        rw [hstep]
        refine ⟨?_, ?_⟩
        · rw [(ih S n).1]
          congr 1
          simp [List.filter_cons, hq]
        · rw [(ih S n).2]
          simp [List.countP_cons, hq]

theorem mem_specNeighbors (h w : ℤ) (cell x : Cell) :
    x ∈ specNeighbors h w cell ↔
      x ∈ scanList cell ∧ inBounds h w cell x := by
  simp [specNeighbors, List.mem_toFinset, List.mem_filter, inBounds,
    Cell.ne_iff, and_assoc]

theorem buildScan_fst (st : AIState) (cell : Cell) (k : ℤ) :
    (buildScan st cell k).1
      = (specNeighbors st.height st.width cell).filter
          (fun x => x ∉ st.mines ∧ x ∉ st.safes) := by
  unfold buildScan
  rw [(scan_foldl st cell (scanList cell) ∅ k).1]
  ext x
  simp [mem_specNeighbors, List.mem_toFinset, List.mem_filter, and_assoc]

theorem buildScan_snd (st : AIState) (cell : Cell) (k : ℤ) :
    (buildScan st cell k).2
      = k - (((specNeighbors st.height st.width cell).filter
          (fun x => x ∈ st.mines)).card : ℤ) := by
  unfold buildScan
  rw [(scan_foldl st cell (scanList cell) ∅ k).2]
  congr 1
  have hset : (specNeighbors st.height st.width cell).filter (fun x => x ∈ st.mines)
      = ((scanList cell).filter (fun x =>
          inBounds st.height st.width cell x ∧ x ∈ st.mines)).toFinset := by
    ext x
    simp [mem_specNeighbors, List.mem_toFinset, List.mem_filter, and_assoc]
  rw [hset]
  have hnd : ((scanList cell).filter (fun x =>
      inBounds st.height st.width cell x ∧ x ∈ st.mines)).Nodup :=
    (scanList_nodup cell).filter _
  rw [List.toFinset_card_of_nodup hnd, List.countP_eq_length_filter]

/-! ### Claim theorems -/

/-- C6: for every sentence, `known_mines` returns exactly the cell set
when the count equals its size and the empty set otherwise, and
`known_safes` returns exactly the cell set when the count is zero and the
empty set otherwise.  Both are pure functions of the sentence in this
embedding, mirroring the source methods, which read but never assign. -/
theorem claim6_known_sets (s : Sentence) :
    (s.count = (s.cells.card : ℤ) → s.known_mines = s.cells) ∧
    (s.count ≠ (s.cells.card : ℤ) → s.known_mines = ∅) ∧
    (s.count = 0 → s.known_safes = s.cells) ∧
    (s.count ≠ 0 → s.known_safes = ∅) := by
  unfold Sentence.known_mines Sentence.known_safes
  exact ⟨fun h => if_pos h, fun h => if_neg h, fun h => if_pos h,
    fun h => if_neg h⟩

/-- Witness for C6 at concrete sentences covering all four branches. -/
theorem claim6_known_sets_witness :
    ((1 : ℤ) = ((({⟨0, 0⟩} : Finset Cell)).card : ℤ) ∧
      (⟨{⟨0, 0⟩}, 1⟩ : Sentence).known_mines = {⟨0, 0⟩}) ∧
    ((⟨{⟨0, 0⟩}, 0⟩ : Sentence).known_safes = {⟨0, 0⟩}) ∧
    ((⟨{⟨0, 0⟩}, 1⟩ : Sentence).known_safes = ∅) ∧
    ((⟨{⟨0, 0⟩}, 0⟩ : Sentence).known_mines = ∅) :=
  ⟨⟨by decide, (claim6_known_sets ⟨{⟨0, 0⟩}, 1⟩).1 (by decide)⟩,
    (claim6_known_sets ⟨{⟨0, 0⟩}, 0⟩).2.2.1 rfl,
    (claim6_known_sets ⟨{⟨0, 0⟩}, 1⟩).2.2.2 (by decide),
    (claim6_known_sets ⟨{⟨0, 0⟩}, 0⟩).2.1 (by decide)⟩

/-- C7: `Sentence.mark_mine` on a present cell removes it and decrements
the count by exactly one, `Sentence.mark_safe` removes it leaving the
count unchanged, and both are no-ops on an absent cell.  In this
embedding both are pure functions of the one sentence, mirroring the
source methods, which assign only to `self.cells` and `self.count`. -/
theorem claim7_sentence_mark (s : Sentence) (c : Cell) :
    (c ∈ s.cells →
      (s.mark_mine c).cells = s.cells.erase c ∧
      (s.mark_mine c).count = s.count - 1 ∧
      (s.mark_safe c).cells = s.cells.erase c ∧
      (s.mark_safe c).count = s.count) ∧
    (c ∉ s.cells → s.mark_mine c = s ∧ s.mark_safe c = s) := by
  refine ⟨fun h => ?_, fun h =>
    ⟨Sentence.mark_mine_of_not_mem s c h, Sentence.mark_safe_of_not_mem s c h⟩⟩
  rw [Sentence.mark_mine_of_mem s c h, Sentence.mark_safe_of_mem s c h]
  exact ⟨rfl, rfl, rfl, rfl⟩

/-- Witness for C7 at a present cell and at an absent cell. -/
theorem claim7_sentence_mark_witness :
    ((⟨0, 0⟩ : Cell) ∈ ({⟨0, 0⟩, ⟨0, 1⟩} : Finset Cell) ∧
      (Sentence.mark_mine ⟨{⟨0, 0⟩, ⟨0, 1⟩}, 1⟩ ⟨0, 0⟩).cells
          = ({⟨0, 0⟩, ⟨0, 1⟩} : Finset Cell).erase ⟨0, 0⟩ ∧
      (Sentence.mark_mine ⟨{⟨0, 0⟩, ⟨0, 1⟩}, 1⟩ ⟨0, 0⟩).count = 1 - 1 ∧
      (Sentence.mark_safe ⟨{⟨0, 0⟩, ⟨0, 1⟩}, 1⟩ ⟨0, 0⟩).cells
          = ({⟨0, 0⟩, ⟨0, 1⟩} : Finset Cell).erase ⟨0, 0⟩ ∧
      (Sentence.mark_safe ⟨{⟨0, 0⟩, ⟨0, 1⟩}, 1⟩ ⟨0, 0⟩).count = 1) ∧
    ((⟨5, 5⟩ : Cell) ∉ ({⟨0, 0⟩, ⟨0, 1⟩} : Finset Cell) ∧
      Sentence.mark_mine ⟨{⟨0, 0⟩, ⟨0, 1⟩}, 1⟩ ⟨5, 5⟩ = ⟨{⟨0, 0⟩, ⟨0, 1⟩}, 1⟩ ∧
      Sentence.mark_safe ⟨{⟨0, 0⟩, ⟨0, 1⟩}, 1⟩ ⟨5, 5⟩ = ⟨{⟨0, 0⟩, ⟨0, 1⟩}, 1⟩) :=
  ⟨⟨by decide, (claim7_sentence_mark ⟨{⟨0, 0⟩, ⟨0, 1⟩}, 1⟩ ⟨0, 0⟩).1 (by decide)⟩,
    ⟨by decide, (claim7_sentence_mark ⟨{⟨0, 0⟩, ⟨0, 1⟩}, 1⟩ ⟨5, 5⟩).2 (by decide)⟩⟩

/-- C4 counterexample: `Sentence.mark_mine` on a sentence containing the
cell with count 0 signals nothing: it silently stores the decremented,
negative count -1 (the source has no guard and Python ints go negative),
refuting the claim that a fatal logic error is signalled. -/
theorem claim4_counterexample :
    Sentence.mark_mine ⟨{⟨0, 0⟩}, 0⟩ ⟨0, 0⟩ = ⟨∅, -1⟩ ∧
      (Sentence.mark_mine ⟨{⟨0, 0⟩}, 0⟩ ⟨0, 0⟩).count < 0 := by decide

/-- C4 amended: when the cell is present and the count is 0, `mark_mine`
silently stores the erased cell set and count -1; no error of any kind is
raised (the operation is total in source and model alike). -/
theorem claim4_amended (s : Sentence) (c : Cell) (hmem : c ∈ s.cells)
    (h0 : s.count = 0) : s.mark_mine c = ⟨s.cells.erase c, -1⟩ := by
  rw [Sentence.mark_mine_of_mem s c hmem, h0]
  rfl

/-- Witness for the amended C4 at a concrete sentence. -/
theorem claim4_amended_witness :
    (⟨0, 0⟩ : Cell) ∈ ({⟨0, 0⟩} : Finset Cell) ∧ (0 : ℤ) = 0 ∧
      Sentence.mark_mine ⟨{⟨0, 0⟩}, 0⟩ ⟨0, 0⟩
        = ⟨({⟨0, 0⟩} : Finset Cell).erase ⟨0, 0⟩, -1⟩ :=
  ⟨by decide, rfl, claim4_amended ⟨{⟨0, 0⟩}, 0⟩ ⟨0, 0⟩ (by decide) rfl⟩

/-- C9: `make_safe_move` returns the unchanged state together with some
cell of `safes` not in `moves_made` whenever one exists, and with `None`
otherwise; `moves_made`, `safes`, `mines`, `knowledge` and every sentence
in it are untouched since the whole state is returned as-is. -/
theorem claim9_make_safe_move (s : AIState) :
    s.make_safe_move.1 = s ∧
    ((∃ c, c ∈ s.safes ∧ c ∉ s.moves_made) →
      ∃ c, s.make_safe_move.2 = some c ∧ c ∈ s.safes ∧ c ∉ s.moves_made) ∧
    ((¬ ∃ c, c ∈ s.safes ∧ c ∉ s.moves_made) → s.make_safe_move.2 = none) := by
  refine ⟨rfl, ?_, ?_⟩
  · rintro ⟨c, hc1, hc2⟩
    have hne : (s.safes \ s.moves_made).Nonempty :=
      ⟨c, Finset.mem_sdiff.2 ⟨hc1, hc2⟩⟩
    have hmem := Finset.min'_mem (s.safes \ s.moves_made) hne
    rw [Finset.mem_sdiff] at hmem
    refine ⟨(s.safes \ s.moves_made).min' hne, ?_, hmem.1, hmem.2⟩
    simp [AIState.make_safe_move, hne]
  · intro h
    have hne : ¬ (s.safes \ s.moves_made).Nonempty := by
      rintro ⟨c, hc⟩
      rw [Finset.mem_sdiff] at hc
      exact h ⟨c, hc.1, hc.2⟩
    simp [AIState.make_safe_move, hne]

/-- Witness for C9 at a state with an unprobed safe cell and at a state
with none. -/
theorem claim9_make_safe_move_witness :
    (⟨2, 2, {⟨0, 0⟩}, ∅, {⟨0, 0⟩, ⟨0, 1⟩}, []⟩ : AIState).make_safe_move.1
        = ⟨2, 2, {⟨0, 0⟩}, ∅, {⟨0, 0⟩, ⟨0, 1⟩}, []⟩ ∧
    (∃ c, (⟨2, 2, {⟨0, 0⟩}, ∅, {⟨0, 0⟩, ⟨0, 1⟩}, []⟩ : AIState).make_safe_move.2
            = some c ∧
          c ∈ ({⟨0, 0⟩, ⟨0, 1⟩} : Finset Cell) ∧
          c ∉ ({⟨0, 0⟩} : Finset Cell)) ∧
    (⟨2, 2, {⟨0, 0⟩}, ∅, {⟨0, 0⟩}, []⟩ : AIState).make_safe_move.2 = none :=
  ⟨(claim9_make_safe_move _).1,
    (claim9_make_safe_move _).2.1 ⟨⟨0, 1⟩, by decide, by decide⟩,
    (claim9_make_safe_move _).2.2 (by decide)⟩

/-- C1 counterexample: the claim asserts `safes` and `mines` stay
disjoint over every reachable state, but marking the same cell safe and
then mine (two public calls, no guard in the source) yields a reachable
state with the cell in both sets. -/
theorem claim1_disjoint_fails :
    Reach (((AIState.init 8 8).mark_safe ⟨0, 0⟩).mark_mine ⟨0, 0⟩) ∧
      ¬ ((((AIState.init 8 8).mark_safe ⟨0, 0⟩).mark_mine ⟨0, 0⟩).safes ∩
          (((AIState.init 8 8).mark_safe ⟨0, 0⟩).mark_mine ⟨0, 0⟩).mines = ∅) :=
  ⟨Reach.step (Reach.step (Reach.init 8 8) (Step.mark_safe _ _))
      (Step.mark_mine _ _),
    by decide⟩

/-- C1 amended: along any sequence of public API calls the sets `mines`
and `safes` only ever grow (a cell once added stays); the disjointness
half of the claim fails, see the counterexample. -/
theorem claim1_monotone (s t : AIState) (h : Relation.ReflTransGen Step s t) :
    s.mines ⊆ t.mines ∧ s.safes ⊆ t.safes := by
  induction h with
  | refl => exact ⟨subset_rfl, subset_rfl⟩
  | tail hab hbc ih =>
      exact ⟨ih.1.trans (step_mono _ _ hbc).1, ih.2.trans (step_mono _ _ hbc).2⟩

/-- Witness for the amended C1 along a concrete one-step sequence. -/
theorem claim1_monotone_witness :
    Relation.ReflTransGen Step (AIState.init 1 1)
        ((AIState.init 1 1).mark_mine ⟨0, 0⟩) ∧
      (AIState.init 1 1).mines ⊆ ((AIState.init 1 1).mark_mine ⟨0, 0⟩).mines ∧
      (AIState.init 1 1).safes ⊆ ((AIState.init 1 1).mark_mine ⟨0, 0⟩).safes :=
  ⟨Relation.ReflTransGen.single (Step.mark_mine _ _),
    claim1_monotone _ _ (Relation.ReflTransGen.single (Step.mark_mine _ _))⟩

/-- C2 counterexample: one reachable `add_knowledge` call creates a
sentence whose three cells are immediately inserted into `mines` by the
`check` step, yet remain inside the sentence in `knowledge` - `check`
performs no removal, refuting the claim that proven cells are removed
from every sentence. -/
theorem claim2_counterexample :
    Reach ((AIState.init 2 2).add_knowledge ⟨0, 0⟩ 3) ∧
      (⟨{⟨0, 1⟩, ⟨1, 0⟩, ⟨1, 1⟩}, 3⟩ : Sentence) ∈
        ((AIState.init 2 2).add_knowledge ⟨0, 0⟩ 3).knowledge ∧
      (⟨0, 1⟩ : Cell) ∈ (⟨{⟨0, 1⟩, ⟨1, 0⟩, ⟨1, 1⟩}, 3⟩ : Sentence).cells ∧
      (⟨0, 1⟩ : Cell) ∈ ((AIState.init 2 2).add_knowledge ⟨0, 0⟩ 3).mines :=
  ⟨Reach.step (Reach.init 2 2) (Step.add_knowledge _ _ _),
    by decide, by decide, by decide⟩

/-- C2 amended: a cell proven through the top-level `mark_mine` or
`mark_safe` operations is indeed removed from every sentence in
`knowledge`, but the `check` step inside `add_knowledge` never modifies
`knowledge` at all: cells it proves are inserted into `mines` or `safes`
while still appearing in sentences. -/
theorem claim2_amended (s : AIState) (c : Cell) :
    (∀ snt ∈ (s.mark_mine c).knowledge, c ∉ snt.cells) ∧
    (∀ snt ∈ (s.mark_safe c).knowledge, c ∉ snt.cells) ∧
    (∀ snt : Sentence, (s.check snt).knowledge = s.knowledge) := by
  refine ⟨?_, ?_, fun snt => check_knowledge s snt⟩
  · intro snt hmem
    rcases List.mem_map.1 hmem with ⟨a, _, rfl⟩
    exact Sentence.not_mem_mark_mine a c
  · intro snt hmem
    rcases List.mem_map.1 hmem with ⟨a, _, rfl⟩
    exact Sentence.not_mem_mark_safe a c

/-- Witness for the amended C2 at a concrete one-sentence state. -/
theorem claim2_amended_witness :
    (⟨0, 0⟩ : Cell) ∉ (Sentence.mark_mine ⟨{⟨0, 0⟩}, 1⟩ ⟨0, 0⟩).cells ∧
      (⟨0, 0⟩ : Cell) ∉ (Sentence.mark_safe ⟨{⟨0, 0⟩}, 1⟩ ⟨0, 0⟩).cells ∧
      ((⟨1, 1, ∅, ∅, ∅, []⟩ : AIState).check ⟨∅, 0⟩).knowledge = [] :=
  ⟨(claim2_amended ⟨1, 1, ∅, ∅, ∅, [⟨{⟨0, 0⟩}, 1⟩]⟩ ⟨0, 0⟩).1 _ (by decide),
    (claim2_amended ⟨1, 1, ∅, ∅, ∅, [⟨{⟨0, 0⟩}, 1⟩]⟩ ⟨0, 0⟩).2.1 _ (by decide),
    (claim2_amended ⟨1, 1, ∅, ∅, ∅, []⟩ ⟨0, 0⟩).2.2 ⟨∅, 0⟩⟩

/-- C3 (code bug): `Sentence.__eq__` is value equality, but `__hash__`
hashes the default object `repr` (only `__str__` is defined), so the
Python set `new_sentences` never collapses value-equal inferred
sentences.  On a 1x3 board, probing (0,0) with count 1 and then (0,2)
with count 1 leaves knowledge with one copy of the sentence
`{(0,1)} = 1`; the single resolution pass of the second call derives it
twice (once per ordered pair orientation) and appends both copies, so
the count rises to 3 instead of 2. -/
theorem claim3_duplicate_inferred :
    (((AIState.init 1 3).add_knowledge ⟨0, 0⟩ 1).knowledge.countP
        (fun snt => snt = ⟨{⟨0, 1⟩}, 1⟩) = 1) ∧
    ((((AIState.init 1 3).add_knowledge ⟨0, 0⟩ 1).add_knowledge ⟨0, 2⟩ 1).knowledge.countP
        (fun snt => snt = ⟨{⟨0, 1⟩}, 1⟩) = 3) := by decide

/-- C5 counterexample: with A = `{(0,0),(0,1)} = 1` and
B = `{(0,0),(0,1),(0,2)} = 2` in knowledge, the next `add_knowledge`
call may probe (0,2) itself; `mark_safe` then strips (0,2) out of B
before the resolution pass, A and the stripped B have equal cell sets,
nothing is inferred about (0,2), and afterwards neither is the sentence
`{(0,2)} = 1` in knowledge nor is (0,2) in `mines` - refuting the claim
for an arbitrary next call. -/
theorem claim5_counterexample :
    (⟨{⟨0, 0⟩, ⟨0, 1⟩}, 1⟩ : Sentence) ∈
        (⟨1, 3, ∅, ∅, ∅, [⟨{⟨0, 0⟩, ⟨0, 1⟩}, 1⟩,
          ⟨{⟨0, 0⟩, ⟨0, 1⟩, ⟨0, 2⟩}, 2⟩]⟩ : AIState).knowledge ∧
    (⟨{⟨0, 0⟩, ⟨0, 1⟩, ⟨0, 2⟩}, 2⟩ : Sentence) ∈
        (⟨1, 3, ∅, ∅, ∅, [⟨{⟨0, 0⟩, ⟨0, 1⟩}, 1⟩,
          ⟨{⟨0, 0⟩, ⟨0, 1⟩, ⟨0, 2⟩}, 2⟩]⟩ : AIState).knowledge ∧
    (⟨{⟨0, 2⟩}, 1⟩ : Sentence) ∉
        ((⟨1, 3, ∅, ∅, ∅, [⟨{⟨0, 0⟩, ⟨0, 1⟩}, 1⟩,
          ⟨{⟨0, 0⟩, ⟨0, 1⟩, ⟨0, 2⟩}, 2⟩]⟩ : AIState).add_knowledge
            ⟨0, 2⟩ 0).knowledge ∧
    (⟨0, 2⟩ : Cell) ∉
        ((⟨1, 3, ∅, ∅, ∅, [⟨{⟨0, 0⟩, ⟨0, 1⟩}, 1⟩,
          ⟨{⟨0, 0⟩, ⟨0, 1⟩, ⟨0, 2⟩}, 2⟩]⟩ : AIState).add_knowledge
            ⟨0, 2⟩ 0).mines := by decide

/-- For the amended C5: once two sentences whose cell sets are in strict
subset position with difference sentence `{(0,2)} = 1` sit in the
knowledge list after the `mark_safe` step, the resolution pass infers
that sentence, it is appended, and its check puts (0,2) into `mines`. -/
theorem derive_zero_two_of_pair (s : AIState) (c : Cell) (k : ℤ)
    (A' B' : Sentence)
    (hA2 : A' ∈ (obsState s c).knowledge)
    (hB2 : B' ∈ (obsState s c).knowledge)
    (hne : A'.cells ≠ B'.cells) (hsub : A'.cells ⊆ B'.cells)
    (heq : (⟨B'.cells \ A'.cells, B'.count - A'.count⟩ : Sentence)
      = ⟨{⟨0, 2⟩}, 1⟩) :
    (⟨{⟨0, 2⟩}, 1⟩ : Sentence) ∈ (s.add_knowledge c k).knowledge ∧
      (⟨0, 2⟩ : Cell) ∈ (s.add_knowledge c k).mines := by
  have hA3 : A' ∈ (preResolution s c k).knowledge := by
    rw [preResolution_knowledge]
    exact List.mem_append_left _ hA2
  have hB3 : B' ∈ (preResolution s c k).knowledge := by
    rw [preResolution_knowledge]
    exact List.mem_append_left _ hB2
  have hinf := resolutionPass_infer (preResolution s c k) A' B' hA3 hB3 hne hsub
  rw [heq] at hinf
  constructor
  · rw [add_knowledge_knowledge]
    exact List.mem_append_right _ hinf
  · have hkm : (⟨{⟨0, 2⟩}, 1⟩ : Sentence).known_mines = {⟨0, 2⟩} := by decide
    have hsb := appendFold_mines_of_mem
      (resolutionPass (preResolution s c k)).2 ⟨{⟨0, 2⟩}, 1⟩ hinf
      (by decide) (resolutionPass (preResolution s c k)).1
    rw [hkm] at hsb
    exact hsb (Finset.mem_singleton_self _)

/-- C5 amended: if knowledge contains A = `{(0,0),(0,1)} = 1` and
B = `{(0,0),(0,1),(0,2)} = 2` and the next `add_knowledge` call probes
any cell other than (0,2), then after its resolution pass the sentence
`{(0,2)} = 1` is in knowledge and (0,2) is in `mines`.  Probing (0,0) or
(0,1) is covered: `mark_safe` strips the probed cell from both A and B,
leaving a strict subset pair whose difference is still `{(0,2)} = 1`.
Only probing (0,2) itself breaks the conclusion, see the
counterexample. -/
theorem claim5_amended (s : AIState) (c : Cell) (k : ℤ)
    (hA : (⟨{⟨0, 0⟩, ⟨0, 1⟩}, 1⟩ : Sentence) ∈ s.knowledge)
    (hB : (⟨{⟨0, 0⟩, ⟨0, 1⟩, ⟨0, 2⟩}, 2⟩ : Sentence) ∈ s.knowledge)
    (h2 : c ≠ ⟨0, 2⟩) :
    (⟨{⟨0, 2⟩}, 1⟩ : Sentence) ∈ (s.add_knowledge c k).knowledge ∧
      (⟨0, 2⟩ : Cell) ∈ (s.add_knowledge c k).mines := by
  have hA2 : Sentence.mark_safe ⟨{⟨0, 0⟩, ⟨0, 1⟩}, 1⟩ c ∈
      (obsState s c).knowledge := by
    rw [obsState_knowledge]
    exact List.mem_map.2 ⟨_, hA, rfl⟩
  have hB2 : Sentence.mark_safe ⟨{⟨0, 0⟩, ⟨0, 1⟩, ⟨0, 2⟩}, 2⟩ c ∈
      (obsState s c).knowledge := by
    rw [obsState_knowledge]
    exact List.mem_map.2 ⟨_, hB, rfl⟩
  by_cases hc0 : c = ⟨0, 0⟩
  · subst hc0
    exact derive_zero_two_of_pair s _ k _ _ hA2 hB2 (by decide) (by decide)
      (by decide)
  · by_cases hc1 : c = ⟨0, 1⟩
    · subst hc1
      exact derive_zero_two_of_pair s _ k _ _ hA2 hB2 (by decide) (by decide)
        (by decide)
    · have hcA : c ∉ (⟨{⟨0, 0⟩, ⟨0, 1⟩}, 1⟩ : Sentence).cells := by
        simp [hc0, hc1]
      have hcB : c ∉ (⟨{⟨0, 0⟩, ⟨0, 1⟩, ⟨0, 2⟩}, 2⟩ : Sentence).cells := by
        simp [hc0, hc1, h2]
      rw [Sentence.mark_safe_of_not_mem _ _ hcA] at hA2
      rw [Sentence.mark_safe_of_not_mem _ _ hcB] at hB2
      exact derive_zero_two_of_pair s c k _ _ hA2 hB2 (by decide) (by decide)
        (by decide)

/-- Witness for the amended C5: the probe is (0,1), one of A's and B's
own cells, showing the derivation survives the `mark_safe` stripping. -/
theorem claim5_amended_witness :
    ((⟨{⟨0, 0⟩, ⟨0, 1⟩}, 1⟩ : Sentence) ∈
        (⟨8, 8, ∅, ∅, ∅, [⟨{⟨0, 0⟩, ⟨0, 1⟩}, 1⟩,
          ⟨{⟨0, 0⟩, ⟨0, 1⟩, ⟨0, 2⟩}, 2⟩]⟩ : AIState).knowledge) ∧
    ((⟨{⟨0, 0⟩, ⟨0, 1⟩, ⟨0, 2⟩}, 2⟩ : Sentence) ∈
        (⟨8, 8, ∅, ∅, ∅, [⟨{⟨0, 0⟩, ⟨0, 1⟩}, 1⟩,
          ⟨{⟨0, 0⟩, ⟨0, 1⟩, ⟨0, 2⟩}, 2⟩]⟩ : AIState).knowledge) ∧
    ((⟨0, 1⟩ : Cell) ≠ ⟨0, 2⟩) ∧
    ((⟨{⟨0, 2⟩}, 1⟩ : Sentence) ∈
      ((⟨8, 8, ∅, ∅, ∅, [⟨{⟨0, 0⟩, ⟨0, 1⟩}, 1⟩,
        ⟨{⟨0, 0⟩, ⟨0, 1⟩, ⟨0, 2⟩}, 2⟩]⟩ : AIState).add_knowledge
          ⟨0, 1⟩ 0).knowledge ∧
     (⟨0, 2⟩ : Cell) ∈
      ((⟨8, 8, ∅, ∅, ∅, [⟨{⟨0, 0⟩, ⟨0, 1⟩}, 1⟩,
        ⟨{⟨0, 0⟩, ⟨0, 1⟩, ⟨0, 2⟩}, 2⟩]⟩ : AIState).add_knowledge
          ⟨0, 1⟩ 0).mines) :=
  ⟨by decide, by decide, by decide,
    claim5_amended _ _ 0 (by decide) (by decide) (by decide)⟩

/-- C10 counterexample: with E = `{} = 0` and B = `{(0,0)} = 1` in
knowledge, the next call may probe (0,0) itself; `mark_safe` then empties
B's cell set, every pair in the resolution pass has equal (empty) cell
sets, and no sentence with cells `{(0,0)}` and count 1 is appended -
refuting the claim for an arbitrary next call. -/
theorem claim10_counterexample :
    (⟨∅, 0⟩ : Sentence) ∈
        (⟨1, 1, ∅, ∅, ∅, [⟨∅, 0⟩, ⟨{⟨0, 0⟩}, 1⟩]⟩ : AIState).knowledge ∧
    (⟨{⟨0, 0⟩}, 1⟩ : Sentence) ∈
        (⟨1, 1, ∅, ∅, ∅, [⟨∅, 0⟩, ⟨{⟨0, 0⟩}, 1⟩]⟩ : AIState).knowledge ∧
    (⟨{⟨0, 0⟩}, 1⟩ : Sentence).cells ≠ ∅ ∧
    (⟨{⟨0, 0⟩}, 1⟩ : Sentence) ∉
        ((⟨1, 1, ∅, ∅, ∅, [⟨∅, 0⟩, ⟨{⟨0, 0⟩}, 1⟩]⟩ : AIState).add_knowledge
          ⟨0, 0⟩ 5).knowledge := by decide

/-- C10 amended: an empty-cell sentence E is never removed from
knowledge, and when knowledge also holds a sentence B with non-empty
cells and the next call probes a cell outside B's cells, the resolution
pass infers and appends the duplicate-producing sentence with cells
`B.cells` and count `B.count - E.count`. -/
theorem claim10_amended (s : AIState) (c : Cell) (k : ℤ) (E B : Sentence)
    (hEc : E.cells = ∅) (hBc : B.cells ≠ ∅) (hE : E ∈ s.knowledge)
    (hB : B ∈ s.knowledge) (hcB : c ∉ B.cells) :
    E ∈ (s.add_knowledge c k).knowledge ∧
      (⟨B.cells, B.count - E.count⟩ : Sentence) ∈
        (s.add_knowledge c k).knowledge := by
  have hcE : c ∉ E.cells := by
    rw [hEc]
    exact Finset.not_mem_empty c
  have hE2 : E ∈ (obsState s c).knowledge := by
    rw [obsState_knowledge]
    exact List.mem_map.2 ⟨_, hE, Sentence.mark_safe_of_not_mem _ _ hcE⟩
  have hB2 : B ∈ (obsState s c).knowledge := by
    rw [obsState_knowledge]
    exact List.mem_map.2 ⟨_, hB, Sentence.mark_safe_of_not_mem _ _ hcB⟩
  have hE3 : E ∈ (preResolution s c k).knowledge := by
    rw [preResolution_knowledge]
    exact List.mem_append_left _ hE2
  have hB3 : B ∈ (preResolution s c k).knowledge := by
    rw [preResolution_knowledge]
    exact List.mem_append_left _ hB2
  have hne : E.cells ≠ B.cells := by
    rw [hEc]
    exact fun hh => hBc hh.symm
  have hsub : E.cells ⊆ B.cells := by
    rw [hEc]
    exact Finset.empty_subset _
  have hinf := resolutionPass_infer (preResolution s c k) E B hE3 hB3 hne hsub
  have heq : (⟨B.cells \ E.cells, B.count - E.count⟩ : Sentence)
      = ⟨B.cells, B.count - E.count⟩ := by
    rw [hEc, Finset.sdiff_empty]
  rw [heq] at hinf
  constructor
  · rw [add_knowledge_knowledge]
    exact List.mem_append_left _ hE3
  · rw [add_knowledge_knowledge]
    exact List.mem_append_right _ hinf

/-- Witness for the amended C10 at a concrete state and probe. -/
theorem claim10_amended_witness :
    (⟨∅, 0⟩ : Sentence).cells = ∅ ∧
    (⟨{⟨0, 5⟩}, 1⟩ : Sentence).cells ≠ ∅ ∧
    (⟨∅, 0⟩ : Sentence) ∈
        (⟨1, 1, ∅, ∅, ∅, [⟨∅, 0⟩, ⟨{⟨0, 5⟩}, 1⟩]⟩ : AIState).knowledge ∧
    (⟨{⟨0, 5⟩}, 1⟩ : Sentence) ∈
        (⟨1, 1, ∅, ∅, ∅, [⟨∅, 0⟩, ⟨{⟨0, 5⟩}, 1⟩]⟩ : AIState).knowledge ∧
    (⟨0, 0⟩ : Cell) ∉ (⟨{⟨0, 5⟩}, 1⟩ : Sentence).cells ∧
    ((⟨∅, 0⟩ : Sentence) ∈
        ((⟨1, 1, ∅, ∅, ∅, [⟨∅, 0⟩, ⟨{⟨0, 5⟩}, 1⟩]⟩ : AIState).add_knowledge
          ⟨0, 0⟩ 0).knowledge ∧
      (⟨({⟨0, 5⟩} : Finset Cell), (1 : ℤ) - 0⟩ : Sentence) ∈
        ((⟨1, 1, ∅, ∅, ∅, [⟨∅, 0⟩, ⟨{⟨0, 5⟩}, 1⟩]⟩ : AIState).add_knowledge
          ⟨0, 0⟩ 0).knowledge) :=
  ⟨rfl, by decide, by decide, by decide, by decide,
    claim10_amended _ _ 0 ⟨∅, 0⟩ ⟨{⟨0, 5⟩}, 1⟩ rfl (by decide) (by decide)
      (by decide) (by decide)⟩

/-- C8: the sentence that `add_knowledge` builds and appends has exactly
the in-bounds 8-neighbors of the probed cell (cell excluded) that at that
moment lie in neither `mines` nor `safes`, and its count is the given
count minus the number of in-bounds neighbors already in `mines`. -/
theorem claim8_observation_sentence (s : AIState) (cell : Cell) (k : ℤ) :
    (obsSentence s cell k).cells
        = (specNeighbors s.height s.width cell).filter
            (fun x => x ∉ (obsState s cell).mines ∧ x ∉ (obsState s cell).safes) ∧
    (obsSentence s cell k).count
        = k - (((specNeighbors s.height s.width cell).filter
            (fun x => x ∈ (obsState s cell).mines)).card : ℤ) ∧
    obsSentence s cell k ∈ (s.add_knowledge cell k).knowledge := by
  refine ⟨buildScan_fst (obsState s cell) cell k, ?_, ?_⟩
  · exact buildScan_snd (obsState s cell) cell k
  · rw [add_knowledge_knowledge, preResolution_knowledge]
    exact List.mem_append_left _
      (List.mem_append_right _ (List.mem_singleton_self _))
